import Mathlib

/-!
# GPIO hardware abstraction layer of the MB9BF568R board support

Shallow embedding of `src/hal/gpio_hal.h` (struct `GpioHal` and its seven
template specialisations).  The memory-mapped register file is explicit state;
every volatile access of the source is one step on that state and is recorded
in an access log, so that both the final register contents and the order of
the accesses can be stated.
-/

/-! ## Register file -/

/-- The GPIO registers named in the header comment of `gpio_hal.h` (ADE, PFR, DDR, PDOR),
together with the input-data and pull-up registers of the same port.  Port registers
carry their port number (`PDOR1` is `PDOR 1`, `PDORE` is `PDOR 14`). -/
inductive GpioReg where
  | ADE
  | PFR (port : Nat)
  | PCR (port : Nat)
  | DDR (port : Nat)
  | PDIR (port : Nat)
  | PDOR (port : Nat)
  deriving DecidableEq, Repr

/-- One bit of the register file: a register and a bit position inside it. -/
structure RegBit where
  reg : GpioReg
  pos : Nat
  deriving DecidableEq, Repr

/-- Contents of the register file, bit by bit. -/
abbrev Regs := RegBit → Bool

/-- One volatile access to a register bit. -/
inductive Access where
  | read (bit : RegBit)
  | write (bit : RegBit) (value : Bool)
  deriving DecidableEq, Repr

/-- The bit an access touches. -/
def Access.bit : Access → RegBit
  | .read b => b
  | .write b _ => b

/-- Whether an access is a write. -/
def Access.isWrite : Access → Bool
  | .read _ => false
  | .write _ _ => true

/-- Hardware state: the register contents and the log of all accesses so far
(oldest first). -/
structure Hw where
  regs : Regs
  log : List Access

/-- Register contents with bit `b` replaced by `v`. -/
def setBit (r : Regs) (b : RegBit) (v : Bool) : Regs :=
  fun x => if x = b then v else r x

/-- Assignment `bit = v;` to a bit-band alias: one write access. -/
def Hw.write (b : RegBit) (v : Bool) (s : Hw) : Hw :=
  { regs := setBit s.regs b v, log := s.log ++ [Access.write b v] }

/-- Read of a bit-band alias: one read access, yielding the word 0 or 1. -/
def Hw.read (b : RegBit) (s : Hw) : Nat × Hw :=
  ((s.regs b).toNat, { s with log := s.log ++ [Access.read b] })

/-- Compound assignment `bit ^= mask;`: the alias word is read, combined with
`mask` by exclusive or, and written back; the bit takes bit 0 of the word written. -/
def Hw.xorAssign (b : RegBit) (mask : Nat) (s : Hw) : Hw :=
  let r := s.read b
  r.2.write b (decide ((r.1 ^^^ mask) % 2 = 1))

/-- The accesses logged between state `before` and the later state `after`. -/
def Hw.since (before after : Hw) : List Access :=
  after.log.drop before.log.length

/-! ## Bit-band names used by `gpio_hal.h`

Modelled from the spec: the register-definition header `mcu.h` is not part of the
sources.  Following the spec's data model (every bound bit is identified by a
register base and a bit position), the name `bFM4_GPIO_<REG><port>_P<pin>` denotes
bit `<pin>` of register `<REG><port>` and `bFM4_GPIO_ADE_AN<nn>` denotes bit `<nn>`
of `ADE`. -/

/-- Modelled from the spec: the bit-band alias of `mcu.h` for PDOR1, pin F. -/
def bFM4_GPIO_PDOR1_PF : RegBit := ⟨.PDOR 1, 15⟩
/-- Modelled from the spec: the bit-band alias of `mcu.h` for DDR1, pin F. -/
def bFM4_GPIO_DDR1_PF : RegBit := ⟨.DDR 1, 15⟩
/-- Modelled from the spec: the bit-band alias of `mcu.h` for PFR1, pin F. -/
def bFM4_GPIO_PFR1_PF : RegBit := ⟨.PFR 1, 15⟩

/-- Modelled from the spec: the bit-band alias of `mcu.h` for PDOR1, pin A. -/
def bFM4_GPIO_PDOR1_PA : RegBit := ⟨.PDOR 1, 10⟩
/-- Modelled from the spec: the bit-band alias of `mcu.h` for DDR1, pin A. -/
def bFM4_GPIO_DDR1_PA : RegBit := ⟨.DDR 1, 10⟩
/-- Modelled from the spec: the bit-band alias of `mcu.h` for PFR1, pin A. -/
def bFM4_GPIO_PFR1_PA : RegBit := ⟨.PFR 1, 10⟩
/-- Modelled from the spec: the bit-band alias of `mcu.h` for ADE, channel AN10. -/
def bFM4_GPIO_ADE_AN10 : RegBit := ⟨.ADE, 10⟩

/-- Modelled from the spec: the bit-band alias of `mcu.h` for PDOR1, pin 9. -/
def bFM4_GPIO_PDOR1_P9 : RegBit := ⟨.PDOR 1, 9⟩
/-- Modelled from the spec: the bit-band alias of `mcu.h` for DDR1, pin 9. -/
def bFM4_GPIO_DDR1_P9 : RegBit := ⟨.DDR 1, 9⟩
/-- Modelled from the spec: the bit-band alias of `mcu.h` for PFR1, pin 9. -/
def bFM4_GPIO_PFR1_P9 : RegBit := ⟨.PFR 1, 9⟩
/-- Modelled from the spec: the bit-band alias of `mcu.h` for ADE, channel AN09. -/
def bFM4_GPIO_ADE_AN09 : RegBit := ⟨.ADE, 9⟩

/-- Modelled from the spec: the bit-band alias of `mcu.h` for PDOR2, pin 5. -/
def bFM4_GPIO_PDOR2_P5 : RegBit := ⟨.PDOR 2, 5⟩
/-- Modelled from the spec: the bit-band alias of `mcu.h` for DDR2, pin 5. -/
def bFM4_GPIO_DDR2_P5 : RegBit := ⟨.DDR 2, 5⟩
/-- Modelled from the spec: the bit-band alias of `mcu.h` for PFR2, pin 5. -/
def bFM4_GPIO_PFR2_P5 : RegBit := ⟨.PFR 2, 5⟩

/-- Modelled from the spec: the bit-band alias of `mcu.h` for PDOR2, pin 7. -/
def bFM4_GPIO_PDOR2_P7 : RegBit := ⟨.PDOR 2, 7⟩
/-- Modelled from the spec: the bit-band alias of `mcu.h` for DDR2, pin 7. -/
def bFM4_GPIO_DDR2_P7 : RegBit := ⟨.DDR 2, 7⟩
/-- Modelled from the spec: the bit-band alias of `mcu.h` for PFR2, pin 7. -/
def bFM4_GPIO_PFR2_P7 : RegBit := ⟨.PFR 2, 7⟩

/-- Modelled from the spec: the bit-band alias of `mcu.h` for PDOR3, pin 8. -/
def bFM4_GPIO_PDOR3_P8 : RegBit := ⟨.PDOR 3, 8⟩
/-- Modelled from the spec: the bit-band alias of `mcu.h` for DDR3, pin 8. -/
def bFM4_GPIO_DDR3_P8 : RegBit := ⟨.DDR 3, 8⟩
/-- Modelled from the spec: the bit-band alias of `mcu.h` for PFR3, pin 8. -/
def bFM4_GPIO_PFR3_P8 : RegBit := ⟨.PFR 3, 8⟩

/-- Modelled from the spec: the bit-band alias of `mcu.h` for PDORE, pin 0. -/
def bFM4_GPIO_PDORE_P0 : RegBit := ⟨.PDOR 14, 0⟩
/-- Modelled from the spec: the bit-band alias of `mcu.h` for DDRE, pin 0. -/
def bFM4_GPIO_DDRE_P0 : RegBit := ⟨.DDR 14, 0⟩
/-- Modelled from the spec: the bit-band alias of `mcu.h` for PFRE, pin 0. -/
def bFM4_GPIO_PFRE_P0 : RegBit := ⟨.PFR 14, 0⟩

/-! ## `gpio_hal.h` -/

/-- The enum `GpioPinId`: all currently supported pins. -/
inductive GpioPinId where
  | DEBUG_PIN1 | DEBUG_PIN2 | DEBUG_PIN3 | DEBUG_PIN4 | LED_RED | LED_GREEN | LED_BLUE
  deriving DecidableEq, Repr

/-- The enum `GpioFunction`, as the integer value the `switch` of `init` inspects.
Its only enumerator is `GPIO_OUTPUT_LOW`; every other value reaches `default`. -/
abbrev GpioFunction := Nat

/-- The enumerator `GPIO_OUTPUT_LOW` (first enumerator, value 0). -/
def GPIO_OUTPUT_LOW : GpioFunction := 0

namespace GpioHal

/-- The seven specialisations of `GpioHal::setOut<pinId>(level)`. -/
def setOut (pinId : GpioPinId) (level : Bool) (s : Hw) : Hw :=
  match pinId with
  | .DEBUG_PIN1 => s.write bFM4_GPIO_PDOR1_PF level
  | .DEBUG_PIN2 => s.write bFM4_GPIO_PDOR1_PA level
  | .DEBUG_PIN3 => s.write bFM4_GPIO_PDOR1_P9 level
  | .DEBUG_PIN4 => s.write bFM4_GPIO_PDOR2_P5 level
  | .LED_RED => s.write bFM4_GPIO_PDOR2_P7 level
  | .LED_GREEN => s.write bFM4_GPIO_PDOR3_P8 level
  | .LED_BLUE => s.write bFM4_GPIO_PDORE_P0 level

/-- The seven specialisations of `GpioHal::toggleOut<pinId>()`. -/
def toggleOut (pinId : GpioPinId) (s : Hw) : Hw :=
  match pinId with
  | .DEBUG_PIN1 => s.xorAssign bFM4_GPIO_PDOR1_PF 0x1
  | .DEBUG_PIN2 => s.xorAssign bFM4_GPIO_PDOR1_PA 0x1
  | .DEBUG_PIN3 => s.xorAssign bFM4_GPIO_PDOR1_P9 0x1
  | .DEBUG_PIN4 => s.xorAssign bFM4_GPIO_PDOR2_P5 0x1
  | .LED_RED => s.xorAssign bFM4_GPIO_PDOR2_P7 0x1
  | .LED_GREEN => s.xorAssign bFM4_GPIO_PDOR3_P8 0x1
  | .LED_BLUE => s.xorAssign bFM4_GPIO_PDORE_P0 0x1

/-- The seven specialisations of `GpioHal::getIn<pinId>()`: each is the stub
`return false;` and performs no register access. -/
def getIn (pinId : GpioPinId) (s : Hw) : Bool × Hw :=
  match pinId with
  | .DEBUG_PIN1 => (false, s)
  | .DEBUG_PIN2 => (false, s)
  | .DEBUG_PIN3 => (false, s)
  | .DEBUG_PIN4 => (false, s)
  | .LED_RED => (false, s)
  | .LED_GREEN => (false, s)
  | .LED_BLUE => (false, s)

/-- The seven specialisations of `GpioHal::init<pinId>(function)`: a `switch` with
the single case `GPIO_OUTPUT_LOW` and an empty `default`. -/
def init (pinId : GpioPinId) (function : GpioFunction) (s : Hw) : Hw :=
  match pinId with
  | .DEBUG_PIN1 =>
    if function = GPIO_OUTPUT_LOW then
      let s := setOut .DEBUG_PIN1 false s
      let s := s.write bFM4_GPIO_DDR1_PF true
      s.write bFM4_GPIO_PFR1_PF false
    else s
  | .DEBUG_PIN2 =>
    if function = GPIO_OUTPUT_LOW then
      let s := setOut .DEBUG_PIN2 false s
      let s := s.write bFM4_GPIO_DDR1_PA true
      let s := s.write bFM4_GPIO_PFR1_PA false
      s.write bFM4_GPIO_ADE_AN10 false
    else s
  | .DEBUG_PIN3 =>
    if function = GPIO_OUTPUT_LOW then
      let s := setOut .DEBUG_PIN3 false s
      let s := s.write bFM4_GPIO_DDR1_P9 true
      let s := s.write bFM4_GPIO_PFR1_P9 false
      s.write bFM4_GPIO_ADE_AN09 false
    else s
  | .DEBUG_PIN4 =>
    if function = GPIO_OUTPUT_LOW then
      let s := setOut .DEBUG_PIN4 false s
      let s := s.write bFM4_GPIO_DDR2_P5 true
      s.write bFM4_GPIO_PFR2_P5 false
    else s
  | .LED_RED =>
    if function = GPIO_OUTPUT_LOW then
      let s := setOut .LED_RED false s
      let s := s.write bFM4_GPIO_DDR2_P7 true
      s.write bFM4_GPIO_PFR2_P7 false
    else s
  | .LED_GREEN =>
    if function = GPIO_OUTPUT_LOW then
      let s := setOut .LED_GREEN false s
      let s := s.write bFM4_GPIO_DDR3_P8 true
      s.write bFM4_GPIO_PFR3_P8 false
    else s
  | .LED_BLUE =>
    if function = GPIO_OUTPUT_LOW then
      let s := setOut .LED_BLUE false s
      let s := s.write bFM4_GPIO_DDRE_P0 true
      s.write bFM4_GPIO_PFRE_P0 false
    else s

end GpioHal

/-! ## Register binding of a pin

The board wiring of each logical pin, as (port, pin number); the output, direction
and function-select bits of a pin are the bits at that position of the port's
PDOR, DDR and PFR registers. -/

/-- Port and pin number each `GpioPinId` is wired to (P1F, P1A, P19, P25, P27, P38, PE0). -/
def pinLocation : GpioPinId → Nat × Nat
  | .DEBUG_PIN1 => (1, 15)
  | .DEBUG_PIN2 => (1, 10)
  | .DEBUG_PIN3 => (1, 9)
  | .DEBUG_PIN4 => (2, 5)
  | .LED_RED => (2, 7)
  | .LED_GREEN => (3, 8)
  | .LED_BLUE => (14, 0)

/-- Output (PDOR) bit of a pin. -/
def pdorBit (p : GpioPinId) : RegBit := ⟨.PDOR (pinLocation p).1, (pinLocation p).2⟩

/-- Direction (DDR) bit of a pin. -/
def ddrBit (p : GpioPinId) : RegBit := ⟨.DDR (pinLocation p).1, (pinLocation p).2⟩

/-- Function-select (PFR) bit of a pin. -/
def pfrBit (p : GpioPinId) : RegBit := ⟨.PFR (pinLocation p).1, (pinLocation p).2⟩

/-- Analog-disable (ADE) bit of a pin, for the two pins that have one. -/
def adeBit : GpioPinId → Option RegBit
  | .DEBUG_PIN2 => some bFM4_GPIO_ADE_AN10
  | .DEBUG_PIN3 => some bFM4_GPIO_ADE_AN09
  | _ => none

/-- All bits bound to a pin. -/
def bindingBits (p : GpioPinId) : List RegBit :=
  [pdorBit p, ddrBit p, pfrBit p] ++ (adeBit p).toList

/-- The register file with every bit 0 and an empty log. -/
def allZero : Hw := { regs := fun _ => false, log := [] }

/-- The register file with every bit 1 and an empty log. -/
def allOnes : Hw := { regs := fun _ => true, log := [] }

/-! ## Calls of the pin access table

A caller's step is one of the four `GpioHal` operations on one pin; the spec's
state `ConfiguredOutput` of a pin is read off the register file. -/

/-- One call of a `GpioHal` operation, with its run-time argument. -/
inductive GpioOp where
  | init (function : GpioFunction)
  | setOut (level : Bool)
  | toggleOut
  | getIn
  deriving DecidableEq, Repr

/-- The state after performing operation `op` on pin `q` (the value returned by
`getIn` is dropped). -/
def GpioOp.apply (q : GpioPinId) (op : GpioOp) (s : Hw) : Hw :=
  match op with
  | .init function => GpioHal.init q function s
  | .setOut level => GpioHal.setOut q level s
  | .toggleOut => GpioHal.toggleOut q s
  | .getIn => (GpioHal.getIn q s).2

/-- The state after a sequence of calls, performed left to right. -/
def runOps (ops : List (GpioPinId × GpioOp)) (s : Hw) : Hw :=
  ops.foldl (fun st c => c.2.apply c.1 st) s

/-- Pin `p` is configured as a GPIO output: direction bit 1, function-select bit 0. -/
def ConfiguredOutput (p : GpioPinId) (s : Hw) : Prop :=
  s.regs (ddrBit p) = true ∧ s.regs (pfrBit p) = false

instance ConfiguredOutput.instDecidable (p : GpioPinId) (s : Hw) :
    Decidable (ConfiguredOutput p s) := by
  unfold ConfiguredOutput
  infer_instance

/-! ## Access footprint -/

/-- The set of register bits a list of accesses reads or writes, without repetition. -/
def accessedBits (l : List Access) : List RegBit :=
  (l.map Access.bit).dedup

/-- The enumerators of `GpioPinId`, in declaration order. -/
def GpioPinId.all : List GpioPinId :=
  [.DEBUG_PIN1, .DEBUG_PIN2, .DEBUG_PIN3, .DEBUG_PIN4, .LED_RED, .LED_GREEN, .LED_BLUE]

/-! ## `gpioDef.h`: the older interface for the four debug pins

Both headers declare an enum named `GpioFunction`; the one of `gpioDef.h` is kept
apart here as `GpioDef.GpioFunction`. -/

/-- The enum `GpioLocation` of `gpioDef.h`. -/
inductive GpioLocation where
  | DebugPin1 | DebugPin2 | DebugPin3 | DebugPin4
  deriving DecidableEq, Repr

/-- The enum `GpioFunction` of `gpioDef.h`, as the integer value the `switch` inspects. -/
abbrev GpioDef.GpioFunction := Nat

/-- The enumerator `GPIO_OUTPUT` (only enumerator, value 0). -/
def GpioDef.GPIO_OUTPUT : GpioDef.GpioFunction := 0

/-- The four specialisations of `GPIOHardwareAccess::init<pin>(function)`. -/
def GPIOHardwareAccess.init (pin : GpioLocation) (function : GpioDef.GpioFunction)
    (s : Hw) : Hw :=
  match pin with
  | .DebugPin1 =>
    if function = GpioDef.GPIO_OUTPUT then
      let s := s.write bFM4_GPIO_DDR1_PF true
      s.write bFM4_GPIO_PFR1_PF false
    else s
  | .DebugPin2 =>
    if function = GpioDef.GPIO_OUTPUT then
      let s := s.write bFM4_GPIO_DDR1_PA true
      let s := s.write bFM4_GPIO_PFR1_PA false
      s.write bFM4_GPIO_ADE_AN10 false
    else s
  | .DebugPin3 =>
    if function = GpioDef.GPIO_OUTPUT then
      let s := s.write bFM4_GPIO_DDR1_P9 true
      let s := s.write bFM4_GPIO_PFR1_P9 false
      s.write bFM4_GPIO_ADE_AN09 false
    else s
  | .DebugPin4 =>
    if function = GpioDef.GPIO_OUTPUT then
      let s := s.write bFM4_GPIO_DDR2_P5 true
      s.write bFM4_GPIO_PFR2_P5 false
    else s

/-- The four specialisations of `GPIOHardwareAccess::set<pin>(state)`. -/
def GPIOHardwareAccess.set (pin : GpioLocation) (state : Bool) (s : Hw) : Hw :=
  match pin with
  | .DebugPin1 => s.write bFM4_GPIO_PDOR1_PF state
  | .DebugPin2 => s.write bFM4_GPIO_PDOR1_PA state
  | .DebugPin3 => s.write bFM4_GPIO_PDOR1_P9 state
  | .DebugPin4 => s.write bFM4_GPIO_PDOR2_P5 state

/-- The four specialisations of `GPIOHardwareAccess::get<pin>()`: the stub
`return false;`. -/
def GPIOHardwareAccess.get (pin : GpioLocation) (s : Hw) : Bool × Hw :=
  match pin with
  | .DebugPin1 => (false, s)
  | .DebugPin2 => (false, s)
  | .DebugPin3 => (false, s)
  | .DebugPin4 => (false, s)

/-- The `GpioPinId` of `gpio_hal.h` that names the same debug pin. -/
def GpioLocation.toPinId : GpioLocation → GpioPinId
  | .DebugPin1 => .DEBUG_PIN1
  | .DebugPin2 => .DEBUG_PIN2
  | .DebugPin3 => .DEBUG_PIN3
  | .DebugPin4 => .DEBUG_PIN4

/-! ## `gpio.h`: pin relocation

`uint32_t` arithmetic is arithmetic on `Nat` modulo 2^32. -/

/-- Left shift `x << n` of a `uint32_t` (defined by the language for `n < 32`). -/
def shl32 (x n : Nat) : Nat := (x <<< n) % 2 ^ 32

/-- Subtraction `x - y` of `uint32_t` values, wrapping modulo 2^32. -/
def sub32 (x y : Nat) : Nat := (x % 2 ^ 32 + 2 ^ 32 - y % 2 ^ 32) % 2 ^ 32

/-- Bitwise complement `~x` of a `uint32_t`. -/
def not32 (x : Nat) : Nat := (2 ^ 32 - 1) ^^^ (x % 2 ^ 32)

/-- The macro `PINRELOC_SET_EPFR(epfr,pos,width,value)`: the value it assigns to `epfr`,
`(epfr & ~(((1u << width) - 1u) << pos)) | (value << pos)`. -/
def PINRELOC_SET_EPFR (epfr pos width value : Nat) : Nat :=
  ((epfr &&& not32 (shl32 (sub32 (shl32 1 width) 1) pos)) ||| shl32 value pos) % 2 ^ 32

/-! ## `fgpio.h`: fast GPIO output enable

Memory is byte addressed; a `uint16_t` store writes two bytes, low byte first (the
Cortex-M4 is little-endian). -/

/-- Byte-addressed memory: the byte stored at each address. -/
abbrev Mem := Nat → Nat

/-- The store `*(uint16_t*)addr = v`: the low byte goes to `addr`, the high byte to
`addr + 1`; the value is truncated to 16 bits. -/
def store16 (m : Mem) (addr v : Nat) : Mem :=
  fun a => if a = addr then v % 256 else if a = addr + 1 then v / 256 % 256 else m a

/-- The `uint16_t` value held at `addr`. -/
def load16 (m : Mem) (addr : Nat) : Nat :=
  m addr % 256 + 256 * (m (addr + 1) % 256)

/-- The enum `en_fgpio_port_t`. -/
inductive en_fgpio_port_t where
  | FGpioPort0 | FGpioPort1 | FGpioPort2 | FGpioPort3 | FGpioPort4 | FGpioPort5
  | FGpioPort6 | FGpioPort7 | FGpioPort8 | FGpioPort9 | FGpioPortA | FGpioPortB
  | FGpioPortC | FGpioPortD | FGpioPortE | FGpioPortF
  deriving DecidableEq, Repr

/-- The value of each enumerator of `en_fgpio_port_t`. -/
def en_fgpio_port_t.toNat : en_fgpio_port_t → Nat
  | .FGpioPort0 => 0
  | .FGpioPort1 => 1
  | .FGpioPort2 => 2
  | .FGpioPort3 => 3
  | .FGpioPort4 => 4
  | .FGpioPort5 => 5
  | .FGpioPort6 => 6
  | .FGpioPort7 => 7
  | .FGpioPort8 => 8
  | .FGpioPort9 => 9
  | .FGpioPortA => 10
  | .FGpioPortB => 11
  | .FGpioPortC => 12
  | .FGpioPortD => 13
  | .FGpioPortE => 14
  | .FGpioPortF => 15

/-- An argument expression written for the macro parameter `port`.  The macros are
expanded by textual substitution and their body uses `port` without parentheses, so the
shape of the argument matters: it is a primary expression (an enumerator, a variable, a
parenthesised expression) of some value, or a sum `l + r` written without parentheses,
`r` being a primary expression. -/
inductive PortArg where
  | prim (value : Nat)
  | add (l : PortArg) (r : Nat)
  deriving DecidableEq, Repr

/-- An enumerator of `en_fgpio_port_t` written as the argument. -/
def en_fgpio_port_t.arg (p : en_fgpio_port_t) : PortArg := .prim p.toNat

/-- The value of the argument expression on its own: the port the caller names. -/
def PortArg.value : PortArg → Nat
  | .prim v => v
  | .add l r => l.value + r

/-- The value of `(uint32_t)port` after substitution of the argument: the cast binds to
the first primary expression only. -/
def PortArg.cast32 : PortArg → Nat
  | .prim v => v % 2 ^ 32
  | .add l r => (l.cast32 + r % 2 ^ 32) % 2 ^ 32

/-- The value of `(uint32_t)port*4u` after substitution of the argument: the cast binds
to the first primary expression and `*4u` to the last one. -/
def PortArg.cast32Times4 : PortArg → Nat
  | .prim v => v % 2 ^ 32 * 4 % 2 ^ 32
  | .add l r => (l.cast32 + r % 2 ^ 32 * 4 % 2 ^ 32) % 2 ^ 32

/-- The address `(uint32_t)&FM_GPIO->FPOER0 + (uint32_t)port*4u` both macros compute.
`FPOER0` is the address of the register `FM_GPIO->FPOER0`, which `mcu.h` (not part of the
sources) fixes. -/
def fpoerAddr (FPOER0 : Nat) (port : PortArg) : Nat :=
  (FPOER0 % 2 ^ 32 + port.cast32Times4) % 2 ^ 32

/-- The macro `FGpio_EnableOutput(port, pins)`. -/
def FGpio_EnableOutput (FPOER0 : Nat) (port : PortArg) (pins : Nat) (m : Mem) : Mem :=
  let addr := fpoerAddr FPOER0 port
  store16 m addr pins

/-- The macro `FGpio_DisableOutput(port)`. -/
def FGpio_DisableOutput (FPOER0 : Nat) (port : PortArg) (m : Mem) : Mem :=
  let addr := fpoerAddr FPOER0 port
  store16 m addr 0x0000

/-! ## Theorems -/

/-! ### Each specialisation uses the bits of its own pin -/

theorem GpioHal.setOut_eq_write (p : GpioPinId) (level : Bool) (s : Hw) :
    GpioHal.setOut p level s = s.write (pdorBit p) level := by
  cases p <;> rfl

theorem GpioHal.toggleOut_eq_xorAssign (p : GpioPinId) (s : Hw) :
    GpioHal.toggleOut p s = s.xorAssign (pdorBit p) 0x1 := by
  cases p <;> rfl

theorem GpioHal.getIn_eq (p : GpioPinId) (s : Hw) : GpioHal.getIn p s = (false, s) := by
  cases p <;> rfl

theorem GpioHal.init_low_eq (p : GpioPinId) (s : Hw) :
    GpioHal.init p GPIO_OUTPUT_LOW s =
      match adeBit p with
      | none => ((s.write (pdorBit p) false).write (ddrBit p) true).write (pfrBit p) false
      | some a =>
        (((s.write (pdorBit p) false).write (ddrBit p) true).write (pfrBit p) false).write a false := by
  cases p <;> rfl

theorem GpioHal.init_default_eq (p : GpioPinId) (f : GpioFunction) (h : f ≠ GPIO_OUTPUT_LOW)
    (s : Hw) : GpioHal.init p f s = s := by
  cases p <;> simp [GpioHal.init, h]

theorem Hw.write_regs (b : RegBit) (v : Bool) (s : Hw) : (s.write b v).regs = setBit s.regs b v :=
  rfl

theorem Hw.write_log (b : RegBit) (v : Bool) (s : Hw) :
    (s.write b v).log = s.log ++ [Access.write b v] :=
  rfl

theorem setBit_same (r : Regs) (b : RegBit) (v : Bool) : setBit r b v b = v := by
  simp [setBit]

theorem setBit_other (r : Regs) (b x : RegBit) (v : Bool) (h : x ≠ b) : setBit r b v x = r x := by
  simp [setBit, h]

theorem Hw.since_append (s t : Hw) (l : List Access) (h : t.log = s.log ++ l) :
    s.since t = l := by
  simp [Hw.since, h]

/-- The accesses of `init<pin>(GPIO_OUTPUT_LOW)`, in program order. -/
theorem GpioHal.init_low_log (p : GpioPinId) (s : Hw) :
    (GpioHal.init p GPIO_OUTPUT_LOW s).log =
      s.log ++ (Access.write (pdorBit p) false :: Access.write (ddrBit p) true ::
        Access.write (pfrBit p) false :: (adeBit p).toList.map (fun a => Access.write a false)) := by
  cases p <;> simp [GpioHal.init_low_eq, adeBit, Hw.write_log]

/-- The register contents after `init<pin>(GPIO_OUTPUT_LOW)`, bit by bit. -/
theorem GpioHal.init_low_regs (p : GpioPinId) (s : Hw) (b : RegBit) :
    (GpioHal.init p GPIO_OUTPUT_LOW s).regs b =
      if b ∈ (adeBit p).toList then false
      else if b = pfrBit p then false
      else if b = ddrBit p then true
      else if b = pdorBit p then false
      else s.regs b := by
  cases p <;> simp [GpioHal.init_low_eq, adeBit, Hw.write_regs, setBit]

theorem xor_one_bit (v : Bool) : decide ((v.toNat ^^^ 0x1) % 2 = 1) = !v := by
  cases v <;> decide

theorem Hw.xorAssign_regs (b : RegBit) (s : Hw) (x : RegBit) :
    (s.xorAssign b 0x1).regs x = if x = b then !(s.regs b) else s.regs x := by
  simp only [Hw.xorAssign, Hw.read, Hw.write, setBit]
  split
  · exact xor_one_bit _
  · rfl

theorem Hw.xorAssign_log (b : RegBit) (s : Hw) :
    (s.xorAssign b 0x1).log = s.log ++ [Access.read b, Access.write b (!(s.regs b))] := by
  simp only [Hw.xorAssign, Hw.read, Hw.write, xor_one_bit, List.append_assoc,
    List.singleton_append]

/-- No operation on any pin clears a direction bit or sets a function-select bit of a
pin that is configured as output. -/
theorem ConfiguredOutput.preserved_by_op (p q : GpioPinId) (op : GpioOp) (s : Hw)
    (h : ConfiguredOutput p s) : ConfiguredOutput p (op.apply q s) := by
  obtain ⟨hd, hf⟩ := h
  cases op with
  | init f =>
    by_cases hlow : f = GPIO_OUTPUT_LOW
    · subst hlow
      simp only [GpioOp.apply, ConfiguredOutput, GpioHal.init_low_regs]
      cases p <;> cases q <;>
        simp_all [adeBit, pdorBit, ddrBit, pfrBit, pinLocation, bFM4_GPIO_ADE_AN10,
          bFM4_GPIO_ADE_AN09]
    · simp only [GpioOp.apply, GpioHal.init_default_eq q f hlow]
      exact ⟨hd, hf⟩
  | setOut level =>
    simp only [GpioOp.apply, ConfiguredOutput, GpioHal.setOut_eq_write, Hw.write_regs]
    rw [setBit_other _ _ _ _ (by simp [ddrBit, pdorBit]),
      setBit_other _ _ _ _ (by simp [pfrBit, pdorBit])]
    exact ⟨hd, hf⟩
  | toggleOut =>
    simp only [GpioOp.apply, ConfiguredOutput, GpioHal.toggleOut_eq_xorAssign,
      Hw.xorAssign_regs]
    rw [if_neg (by simp [ddrBit, pdorBit]), if_neg (by simp [pfrBit, pdorBit])]
    exact ⟨hd, hf⟩
  | getIn =>
    simp only [GpioOp.apply, GpioHal.getIn_eq]
    exact ⟨hd, hf⟩

/-! ### Claims -/

/-- Claim C1: for each of the seven pins and every prior state, after
`init<pin>(GPIO_OUTPUT_LOW)` the pin's PDOR bit is 0, its DDR bit is 1 and its PFR bit
is 0; on the all-zero register file `init<LED_RED>` gives DDR2_P7 = 1, PFR2_P7 = 0,
PDOR2_P7 = 0. -/
theorem GpioHal.init_output_low_configures_pin :
    (∀ (p : GpioPinId) (s : Hw),
      (GpioHal.init p GPIO_OUTPUT_LOW s).regs (pdorBit p) = false ∧
      (GpioHal.init p GPIO_OUTPUT_LOW s).regs (ddrBit p) = true ∧
      (GpioHal.init p GPIO_OUTPUT_LOW s).regs (pfrBit p) = false) ∧
    (GpioHal.init .LED_RED GPIO_OUTPUT_LOW allZero).regs bFM4_GPIO_DDR2_P7 = true ∧
    (GpioHal.init .LED_RED GPIO_OUTPUT_LOW allZero).regs bFM4_GPIO_PFR2_P7 = false ∧
    (GpioHal.init .LED_RED GPIO_OUTPUT_LOW allZero).regs bFM4_GPIO_PDOR2_P7 = false := by
  refine ⟨?_, by decide, by decide, by decide⟩
  intro p s
  simp only [GpioHal.init_low_regs]
  cases p <;> simp [adeBit, pdorBit, ddrBit, pfrBit, pinLocation, bFM4_GPIO_ADE_AN10,
    bFM4_GPIO_ADE_AN09]

/-- Claim C2: `init<pin>(GPIO_OUTPUT_LOW)` leaves every register bit outside the pin's
binding (its PDOR, DDR, PFR bits, plus ADE_AN10 for DEBUG_PIN2 and ADE_AN09 for
DEBUG_PIN3) unchanged, and for the five pins without an analog-disable bit none of the
accesses it performs touches the ADE register. -/
theorem GpioHal.init_output_low_frame (p : GpioPinId) (s : Hw) :
    (∀ b : RegBit, b ∉ bindingBits p →
      (GpioHal.init p GPIO_OUTPUT_LOW s).regs b = s.regs b) ∧
    (p ∈ [GpioPinId.DEBUG_PIN1, .DEBUG_PIN4, .LED_RED, .LED_GREEN, .LED_BLUE] →
      ∀ a ∈ s.since (GpioHal.init p GPIO_OUTPUT_LOW s), a.bit.reg ≠ GpioReg.ADE) := by
  constructor
  · intro b hb
    rw [GpioHal.init_low_regs]
    simp only [bindingBits, List.mem_append, List.mem_cons, List.mem_singleton,
      List.not_mem_nil, or_false, not_or] at hb
    obtain ⟨⟨h1, h2, h3⟩, h4⟩ := hb
    simp [h1, h2, h3, h4]
  · intro hp a ha
    rw [Hw.since_append s _ _ (GpioHal.init_low_log p s)] at ha
    cases p <;> simp [adeBit] at hp ha <;>
      rcases ha with rfl | rfl | rfl <;> simp [Access.bit, pdorBit, ddrBit, pfrBit]

/-- Witness for claim C2 on the all-ones register file: `init<LED_RED>` leaves the
neighbouring PDOR2_P5 bit and the ADE_AN10 bit as they were, and `init<DEBUG_PIN1>`
performs no access to ADE. -/
theorem GpioHal.init_output_low_frame_witness :
    (GpioHal.init .LED_RED GPIO_OUTPUT_LOW allOnes).regs bFM4_GPIO_PDOR2_P5 = true ∧
    (GpioHal.init .LED_RED GPIO_OUTPUT_LOW allOnes).regs bFM4_GPIO_ADE_AN10 = true ∧
    (∀ a ∈ allOnes.since (GpioHal.init .DEBUG_PIN1 GPIO_OUTPUT_LOW allOnes),
      a.bit.reg ≠ GpioReg.ADE) :=
  ⟨(GpioHal.init_output_low_frame .LED_RED allOnes).1 bFM4_GPIO_PDOR2_P5 (by decide),
   (GpioHal.init_output_low_frame .LED_RED allOnes).1 bFM4_GPIO_ADE_AN10 (by decide),
   (GpioHal.init_output_low_frame .DEBUG_PIN1 allOnes).2 (by decide)⟩

/-- Claim C3: for every prior state, after `init<DEBUG_PIN2>(GPIO_OUTPUT_LOW)` the bit
ADE_AN10 is 0 and after `init<DEBUG_PIN3>(GPIO_OUTPUT_LOW)` the bit ADE_AN09 is 0; in
particular this holds on the all-ones register file, where both bits were 1 before. -/
theorem GpioHal.init_clears_analog_bit :
    (∀ s : Hw, (GpioHal.init .DEBUG_PIN2 GPIO_OUTPUT_LOW s).regs bFM4_GPIO_ADE_AN10 = false) ∧
    (∀ s : Hw, (GpioHal.init .DEBUG_PIN3 GPIO_OUTPUT_LOW s).regs bFM4_GPIO_ADE_AN09 = false) ∧
    allOnes.regs bFM4_GPIO_ADE_AN10 = true ∧
    (GpioHal.init .DEBUG_PIN2 GPIO_OUTPUT_LOW allOnes).regs bFM4_GPIO_ADE_AN10 = false ∧
    allOnes.regs bFM4_GPIO_ADE_AN09 = true ∧
    (GpioHal.init .DEBUG_PIN3 GPIO_OUTPUT_LOW allOnes).regs bFM4_GPIO_ADE_AN09 = false := by
  refine ⟨?_, ?_, rfl, by decide, rfl, by decide⟩ <;> intro s <;>
    simp [GpioHal.init_low_regs, adeBit]

/-- Claim C4: the accesses performed by `init<pin>(GPIO_OUTPUT_LOW)` are, in order, the
write of 0 to the pin's PDOR bit, the write of 1 to its DDR bit, the write of 0 to its
PFR bit and then, for DEBUG_PIN2 and DEBUG_PIN3, the write of 0 to the ADE bit; so every
write of 1 to the DDR bit has the write of 0 to the PDOR bit among the accesses before
it. -/
theorem GpioHal.init_output_low_write_order (p : GpioPinId) (s : Hw) :
    s.since (GpioHal.init p GPIO_OUTPUT_LOW s) =
      Access.write (pdorBit p) false :: Access.write (ddrBit p) true ::
        Access.write (pfrBit p) false ::
          (adeBit p).toList.map (fun a => Access.write a false) ∧
    (∀ i : Nat, (s.since (GpioHal.init p GPIO_OUTPUT_LOW s)).get? i =
        some (Access.write (ddrBit p) true) →
      Access.write (pdorBit p) false ∈ (s.since (GpioHal.init p GPIO_OUTPUT_LOW s)).take i) ∧
    allZero.since (GpioHal.init .DEBUG_PIN2 GPIO_OUTPUT_LOW allZero) =
      [Access.write bFM4_GPIO_PDOR1_PA false, Access.write bFM4_GPIO_DDR1_PA true,
        Access.write bFM4_GPIO_PFR1_PA false, Access.write bFM4_GPIO_ADE_AN10 false] ∧
    allZero.since (GpioHal.init .DEBUG_PIN3 GPIO_OUTPUT_LOW allZero) =
      [Access.write bFM4_GPIO_PDOR1_P9 false, Access.write bFM4_GPIO_DDR1_P9 true,
        Access.write bFM4_GPIO_PFR1_P9 false, Access.write bFM4_GPIO_ADE_AN09 false] := by
  have hlog := Hw.since_append s _ _ (GpioHal.init_low_log p s)
  refine ⟨hlog, ?_, by decide, by decide⟩
  intro i hi
  rw [hlog] at hi ⊢
  match i with
  | 0 => simp [ddrBit, pdorBit] at hi
  | k + 1 => simp

/-- Witness for claim C4 on LED_RED: the DDR write is the second access and the PDOR
write precedes it. -/
theorem GpioHal.init_output_low_write_order_witness :
    Access.write (pdorBit .LED_RED) false ∈
      (allZero.since (GpioHal.init .LED_RED GPIO_OUTPUT_LOW allZero)).take 1 :=
  (GpioHal.init_output_low_write_order .LED_RED allZero).2.1 1 (by decide)

/-- Claim C5: after `setOut<pin>(level)` every register bit holds its prior value except
the pin's PDOR bit, which holds `level`; hence `setOut(true)` followed by
`setOut(false)` leaves the PDOR bit at 0. -/
theorem GpioHal.setOut_replaces_output_bit (p : GpioPinId) (level : Bool) (s : Hw) :
    (∀ b : RegBit, (GpioHal.setOut p level s).regs b =
      if b = pdorBit p then level else s.regs b) ∧
    (GpioHal.setOut p false (GpioHal.setOut p true s)).regs (pdorBit p) = false := by
  constructor
  · intro b
    rw [GpioHal.setOut_eq_write, Hw.write_regs]
    rfl
  · rw [GpioHal.setOut_eq_write, Hw.write_regs]
    exact setBit_same _ _ _

/-- Claim C6: after `toggleOut<pin>()` every register bit holds its prior value except
the pin's PDOR bit, which holds its prior value exclusive-or 1. -/
theorem GpioHal.toggleOut_flips_output_bit (p : GpioPinId) (s : Hw) (b : RegBit) :
    (GpioHal.toggleOut p s).regs b =
      if b = pdorBit p then Bool.xor (s.regs (pdorBit p)) true else s.regs b := by
  rw [GpioHal.toggleOut_eq_xorAssign, Hw.xorAssign_regs]
  simp

/-- Claim C7: applying `toggleOut<pin>()` twice restores the register contents, and
`setOut(true); toggleOut(); toggleOut()` leaves the PDOR bit at 1. -/
theorem GpioHal.toggleOut_involutive (p : GpioPinId) (s : Hw) :
    (GpioHal.toggleOut p (GpioHal.toggleOut p s)).regs = s.regs ∧
    (GpioHal.toggleOut p (GpioHal.toggleOut p (GpioHal.setOut p true s))).regs (pdorBit p)
      = true := by
  have key : ∀ t : Hw, (GpioHal.toggleOut p (GpioHal.toggleOut p t)).regs = t.regs := by
    intro t
    funext b
    simp only [GpioHal.toggleOut_eq_xorAssign, Hw.xorAssign_regs]
    by_cases hb : b = pdorBit p <;> simp [hb]
  refine ⟨key s, ?_⟩
  rw [key]
  simp [GpioHal.setOut_eq_write, Hw.write_regs, setBit]

/-- Claim C8: for each of the seven pins and every state, `getIn<pin>()` returns false
and leaves the state (register contents and access log) unchanged, also on the register
file that has every bit set. -/
theorem GpioHal.getIn_returns_false :
    (∀ (p : GpioPinId) (s : Hw), (GpioHal.getIn p s).1 = false ∧ (GpioHal.getIn p s).2 = s) ∧
    (∀ p : GpioPinId, (GpioHal.getIn p allOnes).1 = false) := by
  refine ⟨fun p s => ?_, fun p => ?_⟩ <;> simp [GpioHal.getIn_eq]

/-- Claim C9: for every pin, every function value other than `GPIO_OUTPUT_LOW` and every
prior state, `init<pin>(function)` returns the state unchanged and performs no register
access. -/
theorem GpioHal.init_other_function_noop (p : GpioPinId) (f : GpioFunction) (s : Hw)
    (h : f ≠ GPIO_OUTPUT_LOW) :
    GpioHal.init p f s = s ∧ s.since (GpioHal.init p f s) = [] := by
  rw [GpioHal.init_default_eq p f h]
  exact ⟨rfl, by simp [Hw.since]⟩

/-- Witness for claim C9: `init<DEBUG_PIN2>` with function value 1 on the all-ones
register file. -/
theorem GpioHal.init_other_function_noop_witness :
    GpioHal.init .DEBUG_PIN2 1 allOnes = allOnes ∧
    allOnes.since (GpioHal.init .DEBUG_PIN2 1 allOnes) = [] :=
  GpioHal.init_other_function_noop .DEBUG_PIN2 1 allOnes (by decide)

/-- Claim C10: if pin `p` has direction bit 1 and function-select bit 0, then after any
`GpioHal` operation (init with any function value, setOut with any level, toggleOut,
getIn) on any pin `q`, and after any sequence of such operations, `p` still has
direction bit 1 and function-select bit 0. -/
theorem ConfiguredOutput.stable (p : GpioPinId) (s : Hw) (h : ConfiguredOutput p s) :
    (∀ (q : GpioPinId) (op : GpioOp), ConfiguredOutput p (op.apply q s)) ∧
    (∀ ops : List (GpioPinId × GpioOp), ConfiguredOutput p (runOps ops s)) := by
  refine ⟨fun q op => ConfiguredOutput.preserved_by_op p q op s h, fun ops => ?_⟩
  induction ops generalizing s with
  | nil => exact h
  | cons c rest ih => exact ih _ (ConfiguredOutput.preserved_by_op p c.1 c.2 s h)

/-- Witness for claim C10: LED_RED, once init-ed, stays configured as output through
calls on DEBUG_PIN4 (same port) and on LED_RED itself. -/
theorem ConfiguredOutput.stable_witness :
    ConfiguredOutput .LED_RED (GpioHal.init .LED_RED GPIO_OUTPUT_LOW allZero) ∧
    ConfiguredOutput .LED_RED
      (runOps [(.DEBUG_PIN4, .init GPIO_OUTPUT_LOW), (.LED_RED, .toggleOut),
          (.LED_RED, .init 1), (.DEBUG_PIN4, .setOut true), (.LED_RED, .getIn)]
        (GpioHal.init .LED_RED GPIO_OUTPUT_LOW allZero)) :=
  ⟨by decide,
   (ConfiguredOutput.stable .LED_RED (GpioHal.init .LED_RED GPIO_OUTPUT_LOW allZero)
      (by decide)).2 _⟩

/-! ### Footprint of one call -/

theorem bindingBits_nodup (p : GpioPinId) : (bindingBits p).Nodup := by
  cases p <;> decide

theorem accessedBits_init_low (p : GpioPinId) (s : Hw) :
    accessedBits (s.since (GpioHal.init p GPIO_OUTPUT_LOW s)) = bindingBits p := by
  rw [Hw.since_append s _ _ (GpioHal.init_low_log p s)]
  cases p <;> decide

theorem accessedBits_setOut (p : GpioPinId) (level : Bool) (s : Hw) :
    accessedBits (s.since (GpioHal.setOut p level s)) = [pdorBit p] := by
  rw [Hw.since_append s _ [Access.write (pdorBit p) level]
    (by rw [GpioHal.setOut_eq_write, Hw.write_log])]
  rfl

theorem accessedBits_toggleOut (p : GpioPinId) (s : Hw) :
    accessedBits (s.since (GpioHal.toggleOut p s)) = [pdorBit p] := by
  rw [Hw.since_append s _ _
    (by rw [GpioHal.toggleOut_eq_xorAssign, Hw.xorAssign_log])]
  simp [accessedBits, Access.bit]

theorem Hw.since_self (s : Hw) : s.since s = [] := by
  simp [Hw.since]

/-- Counterexample to claim C11: on the all-zero register file `init<DEBUG_PIN2>`
accesses four distinct register bits, `init<LED_RED>` three, and `getIn<LED_RED>` none,
so the set of bits accessed by one call does not always have exactly one element. -/
theorem accessedBits_not_single :
    accessedBits (allZero.since (GpioHal.init .DEBUG_PIN2 GPIO_OUTPUT_LOW allZero)) =
      [bFM4_GPIO_PDOR1_PA, bFM4_GPIO_DDR1_PA, bFM4_GPIO_PFR1_PA, bFM4_GPIO_ADE_AN10] ∧
    (accessedBits (allZero.since (GpioHal.init .DEBUG_PIN2 GPIO_OUTPUT_LOW allZero))).length ≠ 1 ∧
    (accessedBits (allZero.since (GpioHal.init .LED_RED GPIO_OUTPUT_LOW allZero))).length = 3 ∧
    (accessedBits (allZero.since (GpioHal.getIn .LED_RED allZero).2)).length = 0 := by
  refine ⟨by decide, by decide, by decide, by decide⟩

/-- Claim C11, amended: `setOut` and `toggleOut` access exactly one register bit, the
pin's PDOR bit; `init(GPIO_OUTPUT_LOW)` accesses exactly the bits bound to the pin (PDOR,
DDR, PFR, and the ADE bit of DEBUG_PIN2 and DEBUG_PIN3: three or four distinct bits);
`init` with any other function value and `getIn` access no register bit. -/
theorem GpioHal.call_footprint (p : GpioPinId) (s : Hw) :
    (∀ level : Bool, accessedBits (s.since (GpioHal.setOut p level s)) = [pdorBit p]) ∧
    accessedBits (s.since (GpioHal.toggleOut p s)) = [pdorBit p] ∧
    accessedBits (s.since (GpioHal.init p GPIO_OUTPUT_LOW s)) = bindingBits p ∧
    (bindingBits p).Nodup ∧
    (bindingBits p).length = (if p = .DEBUG_PIN2 ∨ p = .DEBUG_PIN3 then 4 else 3) ∧
    (∀ f : GpioFunction, f ≠ GPIO_OUTPUT_LOW →
      accessedBits (s.since (GpioHal.init p f s)) = []) ∧
    accessedBits (s.since (GpioHal.getIn p s).2) = [] := by
  refine ⟨fun level => accessedBits_setOut p level s, accessedBits_toggleOut p s,
    accessedBits_init_low p s, bindingBits_nodup p, ?_, ?_, ?_⟩
  · cases p <;> decide
  · intro f hf
    rw [GpioHal.init_default_eq p f hf, Hw.since_self]
    rfl
  · rw [GpioHal.getIn_eq, Hw.since_self]
    rfl

/-- Witness for the amended claim C11: `init<DEBUG_PIN3>` with function value 1 on the
all-ones register file accesses no register bit. -/
theorem GpioHal.call_footprint_witness :
    accessedBits (allOnes.since (GpioHal.init .DEBUG_PIN3 1 allOnes)) = [] :=
  (GpioHal.call_footprint .DEBUG_PIN3 allOnes).2.2.2.2.2.1 1 (by decide)

/-- Counterexample to claim C12: no pin supports input readback; there are no pin and
two register states on which `getIn` returns different values, not even the all-zero and
the all-ones register file. -/
theorem GpioHal.getIn_no_readback :
    (¬ ∃ (p : GpioPinId) (s t : Hw), (GpioHal.getIn p s).1 ≠ (GpioHal.getIn p t).1) ∧
    (∀ p ∈ GpioPinId.all, (GpioHal.getIn p allZero).1 = (GpioHal.getIn p allOnes).1) := by
  constructor
  · rintro ⟨p, s, t, h⟩
    exact h (by rw [GpioHal.getIn_eq, GpioHal.getIn_eq])
  · decide

/-- Claim C12, amended: input readback is implemented for none of the supported pins;
for every pin `getIn` is a stub whose result is false on every register state, so it is
the same on any two states, whatever the pin's input (PDIR) bit holds, and it reads no
register bit. -/
theorem GpioHal.getIn_stub_all_pins (p : GpioPinId) (s t : Hw) :
    (GpioHal.getIn p s).1 = (GpioHal.getIn p t).1 ∧
    (GpioHal.getIn p { s with regs := setBit s.regs ⟨.PDIR (pinLocation p).1, (pinLocation p).2⟩ true }).1
      = false ∧
    s.since (GpioHal.getIn p s).2 = [] := by
  refine ⟨by rw [GpioHal.getIn_eq, GpioHal.getIn_eq], by rw [GpioHal.getIn_eq], ?_⟩
  rw [GpioHal.getIn_eq, Hw.since_self]

/-! ### Locality of the operations -/

theorem GpioHal.init_low_regs_outside (p : GpioPinId) (s : Hw) (b : RegBit)
    (hb : b ∉ bindingBits p) : (GpioHal.init p GPIO_OUTPUT_LOW s).regs b = s.regs b := by
  rw [GpioHal.init_low_regs]
  simp only [bindingBits, List.mem_append, List.mem_cons, List.mem_singleton,
    List.not_mem_nil, or_false, not_or] at hb
  obtain ⟨⟨h1, h2, h3⟩, h4⟩ := hb
  simp [h1, h2, h3, h4]

theorem pdorBit_mem_bindingBits (p : GpioPinId) : pdorBit p ∈ bindingBits p := by
  simp [bindingBits]

theorem ddrBit_mem_bindingBits (p : GpioPinId) : ddrBit p ∈ bindingBits p := by
  simp [bindingBits]

theorem pfrBit_mem_bindingBits (p : GpioPinId) : pfrBit p ∈ bindingBits p := by
  simp [bindingBits]

/-- The bits bound to distinct pins are distinct. -/
theorem bindingBits_disjoint (p q : GpioPinId) (h : p ≠ q) :
    ∀ x ∈ bindingBits p, x ∉ bindingBits q := by
  cases p <;> cases q <;> first | exact absurd rfl h | decide

/-- An operation on pin `p` changes no bit outside the binding of `p`. -/
theorem GpioOp.apply_frame (p : GpioPinId) (op : GpioOp) (s : Hw) (x : RegBit)
    (hx : x ∉ bindingBits p) : (op.apply p s).regs x = s.regs x := by
  have h1 : x ≠ pdorBit p := fun e => hx (e ▸ pdorBit_mem_bindingBits p)
  cases op with
  | init f =>
    by_cases hlow : f = GPIO_OUTPUT_LOW
    · subst hlow
      exact (GpioHal.init_low_regs_outside p s x hx)
    · simp only [GpioOp.apply, GpioHal.init_default_eq p f hlow]
  | setOut level =>
    simp only [GpioOp.apply, GpioHal.setOut_eq_write, Hw.write_regs]
    exact setBit_other _ _ _ _ h1
  | toggleOut =>
    simp only [GpioOp.apply, GpioHal.toggleOut_eq_xorAssign, Hw.xorAssign_regs, if_neg h1]
  | getIn =>
    simp only [GpioOp.apply, GpioHal.getIn_eq]

/-- The bits of pin `p` after an operation on `p` depend only on the bits of `p`
before it. -/
theorem GpioOp.apply_local (p : GpioPinId) (op : GpioOp) (s t : Hw)
    (h : ∀ x ∈ bindingBits p, s.regs x = t.regs x) (x : RegBit) (hx : x ∈ bindingBits p) :
    (op.apply p s).regs x = (op.apply p t).regs x := by
  cases op with
  | init f =>
    by_cases hlow : f = GPIO_OUTPUT_LOW
    · subst hlow
      simp only [GpioOp.apply, GpioHal.init_low_regs, h x hx]
    · simp only [GpioOp.apply, GpioHal.init_default_eq p f hlow]
      exact h x hx
  | setOut level =>
    simp only [GpioOp.apply, GpioHal.setOut_eq_write, Hw.write_regs, setBit, h x hx]
  | toggleOut =>
    simp only [GpioOp.apply, GpioHal.toggleOut_eq_xorAssign, Hw.xorAssign_regs, h x hx,
      h _ (pdorBit_mem_bindingBits p)]
  | getIn =>
    simp only [GpioOp.apply, GpioHal.getIn_eq]
    exact h x hx

/-- Operations on distinct pins commute on the register contents. -/
theorem GpioOp.apply_comm_regs (p q : GpioPinId) (h : p ≠ q) (a b : GpioOp) (s : Hw) :
    (b.apply q (a.apply p s)).regs = (a.apply p (b.apply q s)).regs := by
  funext x
  by_cases hp : x ∈ bindingBits p
  · have hq : x ∉ bindingBits q := bindingBits_disjoint p q h x hp
    rw [GpioOp.apply_frame q b _ x hq]
    refine GpioOp.apply_local p a _ _ (fun y hy => ?_) x hp
    rw [GpioOp.apply_frame q b s y (bindingBits_disjoint p q h y hy)]
  · rw [GpioOp.apply_frame p a _ x hp]
    by_cases hq : x ∈ bindingBits q
    · refine GpioOp.apply_local q b _ _ (fun y hy => ?_) x hq
      rw [GpioOp.apply_frame p a s y (bindingBits_disjoint q p (Ne.symm h) y hy)]
    · rw [GpioOp.apply_frame q b _ x hq, GpioOp.apply_frame q b _ x hq,
        GpioOp.apply_frame p a _ x hp]

/-- The register contents after `init<pin>(GPIO_OUTPUT_LOW)` do not depend on the prior
values of the bits bound to the pin. -/
theorem GpioHal.init_low_regs_congr (p : GpioPinId) (s t : Hw)
    (h : ∀ x, x ∉ bindingBits p → s.regs x = t.regs x) :
    (GpioHal.init p GPIO_OUTPUT_LOW s).regs = (GpioHal.init p GPIO_OUTPUT_LOW t).regs := by
  funext x
  rw [GpioHal.init_low_regs, GpioHal.init_low_regs]
  by_cases h4 : x ∈ (adeBit p).toList
  · simp [h4]
  by_cases h3 : x = pfrBit p
  · simp [h3]
  by_cases h2 : x = ddrBit p
  · simp [h2]
  by_cases h1 : x = pdorBit p
  · simp [h1]
  have hx : x ∉ bindingBits p := by
    simp [bindingBits, h1, h2, h3]
    simpa using h4
  simp only [h4, h3, h2, h1, if_false]
  exact h x hx

/-! ### Claims on pairs of calls -/

/-- Claim C15: the bits bound to distinct pins are disjoint, and for pins p ≠ q any
operation `a` on `p` and any operation `b` on `q` (init with any function value, setOut
with any level, toggleOut, getIn) commute on the register contents; `a` leaves the
PDOR, DDR and PFR bits of `q` unchanged. -/
theorem GpioHal.distinct_pins_commute (p q : GpioPinId) (h : p ≠ q) (a b : GpioOp) (s : Hw) :
    (∀ x ∈ bindingBits p, x ∉ bindingBits q) ∧
    (b.apply q (a.apply p s)).regs = (a.apply p (b.apply q s)).regs ∧
    (a.apply p s).regs (pdorBit q) = s.regs (pdorBit q) ∧
    (a.apply p s).regs (ddrBit q) = s.regs (ddrBit q) ∧
    (a.apply p s).regs (pfrBit q) = s.regs (pfrBit q) := by
  have hqp := bindingBits_disjoint q p (Ne.symm h)
  exact ⟨bindingBits_disjoint p q h, GpioOp.apply_comm_regs p q h a b s,
    GpioOp.apply_frame p a s _ (hqp _ (pdorBit_mem_bindingBits q)),
    GpioOp.apply_frame p a s _ (hqp _ (ddrBit_mem_bindingBits q)),
    GpioOp.apply_frame p a s _ (hqp _ (pfrBit_mem_bindingBits q))⟩

/-- Witness for claim C15: `toggleOut<DEBUG_PIN2>` and `init<DEBUG_PIN3>(GPIO_OUTPUT_LOW)`,
two pins of port 1 that both have an ADE bit, on the all-ones register file. -/
theorem GpioHal.distinct_pins_commute_witness :
    (GpioHal.init .DEBUG_PIN3 GPIO_OUTPUT_LOW (GpioHal.toggleOut .DEBUG_PIN2 allOnes)).regs =
      (GpioHal.toggleOut .DEBUG_PIN2 (GpioHal.init .DEBUG_PIN3 GPIO_OUTPUT_LOW allOnes)).regs ∧
    (GpioHal.toggleOut .DEBUG_PIN2 allOnes).regs bFM4_GPIO_PDOR1_P9 = true :=
  ⟨(GpioHal.distinct_pins_commute .DEBUG_PIN2 .DEBUG_PIN3 (by decide) .toggleOut
      (.init GPIO_OUTPUT_LOW) allOnes).2.1,
   (GpioHal.distinct_pins_commute .DEBUG_PIN2 .DEBUG_PIN3 (by decide) .toggleOut
      (.init GPIO_OUTPUT_LOW) allOnes).2.2.1⟩

/-- Claim C16: on the register contents `init<pin>(GPIO_OUTPUT_LOW)` is idempotent and
absorbs an earlier `setOut` (any level) or `toggleOut` on the same pin, and two prior
states that agree outside the bits bound to the pin give the same contents after
`init`. -/
theorem GpioHal.init_idempotent_absorbing (p : GpioPinId) (level : Bool) (s t : Hw)
    (h : ∀ x, x ∉ bindingBits p → s.regs x = t.regs x) :
    (GpioHal.init p GPIO_OUTPUT_LOW (GpioHal.init p GPIO_OUTPUT_LOW s)).regs =
      (GpioHal.init p GPIO_OUTPUT_LOW s).regs ∧
    (GpioHal.init p GPIO_OUTPUT_LOW (GpioHal.setOut p level s)).regs =
      (GpioHal.init p GPIO_OUTPUT_LOW s).regs ∧
    (GpioHal.init p GPIO_OUTPUT_LOW (GpioHal.toggleOut p s)).regs =
      (GpioHal.init p GPIO_OUTPUT_LOW s).regs ∧
    (GpioHal.init p GPIO_OUTPUT_LOW s).regs = (GpioHal.init p GPIO_OUTPUT_LOW t).regs := by
  refine ⟨?_, ?_, ?_, GpioHal.init_low_regs_congr p s t h⟩
  · exact GpioHal.init_low_regs_congr p _ s
      (fun x hx => GpioOp.apply_frame p (.init GPIO_OUTPUT_LOW) s x hx)
  · exact GpioHal.init_low_regs_congr p _ s
      (fun x hx => GpioOp.apply_frame p (.setOut level) s x hx)
  · exact GpioHal.init_low_regs_congr p _ s
      (fun x hx => GpioOp.apply_frame p .toggleOut s x hx)

/-- Witness for claim C16: LED_RED on the all-zero register file and on the file that
differs from it exactly in the three bits bound to LED_RED. -/
theorem GpioHal.init_idempotent_absorbing_witness :
    (GpioHal.init .LED_RED GPIO_OUTPUT_LOW (GpioHal.toggleOut .LED_RED allZero)).regs =
      (GpioHal.init .LED_RED GPIO_OUTPUT_LOW allZero).regs ∧
    (GpioHal.init .LED_RED GPIO_OUTPUT_LOW allZero).regs =
      (GpioHal.init .LED_RED GPIO_OUTPUT_LOW
        { regs := fun x => decide (x ∈ bindingBits .LED_RED), log := [] }).regs :=
  have hw := GpioHal.init_idempotent_absorbing .LED_RED true allZero
    { regs := fun x => decide (x ∈ bindingBits .LED_RED), log := [] }
    (fun x hx => by simp [allZero, hx])
  ⟨hw.2.2.1, hw.2.2.2⟩

/-! ### The two interfaces -/

/-- Claim C17: on the four debug pins, for every state (register contents and access
log), `GPIOHardwareAccess::set` has the effect of `GpioHal::setOut`,
`GPIOHardwareAccess::get` returns false without an access like `GpioHal::getIn`,
`GpioHal::init(GPIO_OUTPUT_LOW)` is `GpioHal::setOut(false)` followed by
`GPIOHardwareAccess::init(GPIO_OUTPUT)`, and `GPIOHardwareAccess::init` (any function
value) leaves the pin's PDOR bit at its prior value. -/
theorem GPIOHardwareAccess.agrees_with_GpioHal (pin : GpioLocation) (s : Hw) :
    (∀ state : Bool, GPIOHardwareAccess.set pin state s = GpioHal.setOut pin.toPinId state s) ∧
    GPIOHardwareAccess.get pin s = GpioHal.getIn pin.toPinId s ∧
    (GPIOHardwareAccess.get pin s).1 = false ∧
    GpioHal.init pin.toPinId GPIO_OUTPUT_LOW s =
      GPIOHardwareAccess.init pin GpioDef.GPIO_OUTPUT (GpioHal.setOut pin.toPinId false s) ∧
    (∀ f : GpioDef.GpioFunction,
      (GPIOHardwareAccess.init pin f s).regs (pdorBit pin.toPinId) =
        s.regs (pdorBit pin.toPinId)) ∧
    (GPIOHardwareAccess.init .DebugPin1 GpioDef.GPIO_OUTPUT allOnes).regs bFM4_GPIO_PDOR1_PF
      = true := by
  refine ⟨fun state => ?_, ?_, ?_, ?_, fun f => ?_, by decide⟩
  · cases pin <;> rfl
  · cases pin <;> rfl
  · cases pin <;> rfl
  · cases pin <;> rfl
  · by_cases hf : f = GpioDef.GPIO_OUTPUT
    · subst hf
      cases pin <;>
        simp [GPIOHardwareAccess.init, GpioLocation.toPinId, Hw.write_regs, setBit, pdorBit,
          pinLocation, bFM4_GPIO_DDR1_PF, bFM4_GPIO_PFR1_PF, bFM4_GPIO_DDR1_PA,
          bFM4_GPIO_PFR1_PA, bFM4_GPIO_ADE_AN10, bFM4_GPIO_DDR1_P9, bFM4_GPIO_PFR1_P9,
          bFM4_GPIO_ADE_AN09, bFM4_GPIO_DDR2_P5, bFM4_GPIO_PFR2_P5]
    · cases pin <;> simp [GPIOHardwareAccess.init, hf]

/-! ### Pin relocation bit-field -/

theorem sub32_shl32_one (width : Nat) (hw : width < 32) :
    sub32 (shl32 1 width) 1 = 2 ^ width - 1 := by
  have h1 : 2 ^ width < 2 ^ 32 := Nat.pow_lt_pow_right (by decide) hw
  have h0 : 0 < 2 ^ width := Nat.two_pow_pos width
  have hM : (2 : Nat) ^ 32 = 4294967296 := by norm_num
  simp only [sub32, shl32, Nat.one_shiftLeft]
  rw [hM] at h1 ⊢
  generalize 2 ^ width = n at h0 h1 ⊢
  omega

/-- Bit `i` of the value `PINRELOC_SET_EPFR` assigns: inside the field it is the bit of
`value`, outside it is the bit of the old `epfr`. -/
theorem PINRELOC_SET_EPFR_testBit (epfr pos width value i : Nat) (he : epfr < 2 ^ 32)
    (hw : width < 32) (hp : pos + width ≤ 32) (hv : value < 2 ^ width) :
    (PINRELOC_SET_EPFR epfr pos width value).testBit i =
      if pos ≤ i ∧ i < pos + width then value.testBit (i - pos) else epfr.testBit i := by
  have hhigh : ∀ j, 32 ≤ j → epfr.testBit j = false := fun j hj =>
    Nat.testBit_lt_two_pow (lt_of_lt_of_le he (Nat.pow_le_pow_right (by decide) hj))
  have hval : ∀ j, width ≤ j → value.testBit j = false := fun j hj =>
    Nat.testBit_lt_two_pow (lt_of_lt_of_le hv (Nat.pow_le_pow_right (by decide) hj))
  rw [PINRELOC_SET_EPFR, sub32_shl32_one width hw]
  simp only [not32, shl32, Nat.testBit_mod_two_pow,
    Nat.testBit_or, Nat.testBit_and, Nat.testBit_xor, Nat.testBit_two_pow_sub_one,
    Nat.testBit_shiftLeft]
  by_cases h32 : i < 32
  · by_cases hlo : pos ≤ i
    · by_cases hhi : i < pos + width
      · have : i - pos < width := by omega
        simp [h32, hlo, hhi, this]
      · have : ¬ (i - pos < width) := by omega
        simp [h32, hlo, hhi, this, hval (i - pos) (by omega)]
    · simp [h32, hlo]
  · have : ¬ (pos ≤ i ∧ i < pos + width) := by omega
    simp [h32, this, hhigh i (by omega)]

/-- Claim C18: for a 32-bit `epfr` and `1 ≤ width < 32`, `pos + width ≤ 32`,
`value < 2^width`, the value `PINRELOC_SET_EPFR` assigns is a 32-bit value whose field
`(epfr' >> pos) mod 2^width` is `value` and whose bits outside positions
`pos .. pos+width-1` are those of the old `epfr`. -/
theorem PINRELOC_SET_EPFR_sets_field (epfr pos width value : Nat) (he : epfr < 2 ^ 32)
    (_hw1 : 1 ≤ width) (hw : width < 32) (hp : pos + width ≤ 32) (hv : value < 2 ^ width) :
    PINRELOC_SET_EPFR epfr pos width value < 2 ^ 32 ∧
    (PINRELOC_SET_EPFR epfr pos width value >>> pos) % 2 ^ width = value ∧
    ∀ i : Nat, i < pos ∨ pos + width ≤ i →
      (PINRELOC_SET_EPFR epfr pos width value).testBit i = epfr.testBit i := by
  have hval : ∀ j, width ≤ j → value.testBit j = false := fun j hj =>
    Nat.testBit_lt_two_pow (lt_of_lt_of_le hv (Nat.pow_le_pow_right (by decide) hj))
  refine ⟨Nat.mod_lt _ (Nat.two_pow_pos 32), ?_, ?_⟩
  · apply Nat.eq_of_testBit_eq
    intro j
    rw [Nat.testBit_mod_two_pow, Nat.testBit_shiftRight,
      PINRELOC_SET_EPFR_testBit epfr pos width value (pos + j) he hw hp hv]
    by_cases hj : j < width
    · have h2 : pos ≤ pos + j ∧ pos + j < pos + width := by omega
      simp [hj, h2]
    · simp [hj, hval j (by omega)]
  · intro i hi
    rw [PINRELOC_SET_EPFR_testBit epfr pos width value i he hw hp hv]
    have h2 : ¬ (pos ≤ i ∧ i < pos + width) := by omega
    simp [h2]

/-- Witness for claim C18: writing the value 1 into the 2-bit field at position 4 of
`0xFFFFFFFF` gives `0xFFFFFFDF`. -/
theorem PINRELOC_SET_EPFR_sets_field_witness :
    PINRELOC_SET_EPFR 0xFFFFFFFF 4 2 1 = 0xFFFFFFDF ∧
    (PINRELOC_SET_EPFR 0xFFFFFFFF 4 2 1 >>> 4) % 2 ^ 2 = 1 ∧
    (PINRELOC_SET_EPFR 0xFFFFFFFF 4 2 1).testBit 6 = Nat.testBit 0xFFFFFFFF 6 :=
  ⟨by decide,
   (PINRELOC_SET_EPFR_sets_field 0xFFFFFFFF 4 2 1 (by decide) (by decide) (by decide)
      (by decide) (by decide)).2.1,
   (PINRELOC_SET_EPFR_sets_field 0xFFFFFFFF 4 2 1 (by decide) (by decide) (by decide)
      (by decide) (by decide)).2.2 6 (Or.inr (by decide))⟩

/-! ### Fast GPIO output enable -/

theorem en_fgpio_port_t.toNat_lt (port : en_fgpio_port_t) : port.toNat < 16 := by
  cases port <;> decide

theorem en_fgpio_port_t.toNat_injective (p q : en_fgpio_port_t) (h : p.toNat = q.toNat) :
    p = q := by
  cases p <;> cases q <;> first | rfl | exact absurd h (by decide)

/-- For an enumerator argument, without wrap-around, the address is `&FPOER0 + 4*port`. -/
theorem fpoerAddr_eq (FPOER0 : Nat) (port : en_fgpio_port_t) (hb : FPOER0 + 64 ≤ 2 ^ 32) :
    fpoerAddr FPOER0 port.arg = FPOER0 + 4 * port.toNat := by
  have hlt := en_fgpio_port_t.toNat_lt port
  have hM : (2 : Nat) ^ 32 = 4294967296 := by norm_num
  rw [hM] at hb
  simp only [fpoerAddr, en_fgpio_port_t.arg, PortArg.cast32Times4, hM]
  omega

theorem load16_store16_same (m : Mem) (addr v : Nat) :
    load16 (store16 m addr v) addr = v % 65536 := by
  simp only [load16, store16, if_true, if_neg (Nat.succ_ne_self addr)]
  omega

theorem store16_other (m : Mem) (addr v a : Nat) (h1 : a ≠ addr) (h2 : a ≠ addr + 1) :
    store16 m addr v a = m a := by
  simp only [store16, if_neg h1, if_neg h2]

/-- The halfwords addressed by distinct enumerator arguments do not overlap. -/
theorem fpoerAddr_disjoint (FPOER0 : Nat) (p q : en_fgpio_port_t) (h : p ≠ q) :
    fpoerAddr FPOER0 q.arg ≠ fpoerAddr FPOER0 p.arg ∧
    fpoerAddr FPOER0 q.arg ≠ fpoerAddr FPOER0 p.arg + 1 ∧
    fpoerAddr FPOER0 q.arg + 1 ≠ fpoerAddr FPOER0 p.arg := by
  have hne : p.toNat ≠ q.toNat := fun e => h (en_fgpio_port_t.toNat_injective p q e)
  have hp := en_fgpio_port_t.toNat_lt p
  have hq := en_fgpio_port_t.toNat_lt q
  have hM : (2 : Nat) ^ 32 = 4294967296 := by norm_num
  simp only [fpoerAddr, en_fgpio_port_t.arg, PortArg.cast32Times4, hM]
  omega

/-- Where the macros do what is intended: when the argument written for `port` is an
enumerator (a primary expression) and `pins` is a 16-bit value, `FGpio_EnableOutput`
makes the halfword at the address it computes (`&FPOER0 + 4*port` when the register block
lies inside the 32-bit address space) hold `pins`, changes no other byte, leaves the
halfword of every other port as it was, and `FGpio_DisableOutput` is
`FGpio_EnableOutput` with `0x0000`. -/
theorem FGpio_EnableOutput_enumerator_port (FPOER0 : Nat) (port q : en_fgpio_port_t)
    (pins : Nat) (m : Mem) (hpins : pins < 2 ^ 16) (hq : port ≠ q) :
    (FPOER0 + 64 ≤ 2 ^ 32 → fpoerAddr FPOER0 port.arg = FPOER0 + 4 * port.toNat) ∧
    load16 (FGpio_EnableOutput FPOER0 port.arg pins m) (fpoerAddr FPOER0 port.arg) = pins ∧
    (∀ a : Nat, a ≠ fpoerAddr FPOER0 port.arg → a ≠ fpoerAddr FPOER0 port.arg + 1 →
      FGpio_EnableOutput FPOER0 port.arg pins m a = m a) ∧
    load16 (FGpio_EnableOutput FPOER0 port.arg pins m) (fpoerAddr FPOER0 q.arg) =
      load16 m (fpoerAddr FPOER0 q.arg) ∧
    FGpio_DisableOutput FPOER0 port.arg m = FGpio_EnableOutput FPOER0 port.arg 0x0000 m := by
  have hP : (2 : Nat) ^ 16 = 65536 := by norm_num
  rw [hP] at hpins
  obtain ⟨h1, h2, h3⟩ := fpoerAddr_disjoint FPOER0 port q hq
  refine ⟨fpoerAddr_eq FPOER0 port, ?_, fun a ha1 ha2 => store16_other m _ pins a ha1 ha2,
    ?_, rfl⟩
  · rw [FGpio_EnableOutput, load16_store16_same, Nat.mod_eq_of_lt hpins]
  · rw [FGpio_EnableOutput, load16, load16, store16_other m _ pins _ h1 h2,
      store16_other m _ pins _ h3 (by omega)]

/-- Claim C19, where the code departs from it: the macro body reads `(uint32_t)port*4u`
with `port` not parenthesised.  For the argument `FGpioPort1 + 2`, which names port 3,
with `FPOER0` at `0x4006F900`, zeroed memory and pins `0xFFFF`, the expansion
`(uint32_t)FGpioPort1 + 2*4u` gives the address `&FPOER0 + 9` and not `&FPOER0 + 12`:
the halfword of port 3 stays 0, and the byte at `+9`, the high byte of the halfword of
port 2, is overwritten.  The enumerator argument `FGpioPort3` stores at `&FPOER0 + 12`;
`FGpio_DisableOutput` computes the same wrong address. -/
theorem FGpio_EnableOutput_unparenthesised_port :
    (PortArg.add en_fgpio_port_t.FGpioPort1.arg 2).value = en_fgpio_port_t.FGpioPort3.toNat ∧
    fpoerAddr 0x4006F900 (.add en_fgpio_port_t.FGpioPort1.arg 2) = 0x4006F900 + 9 ∧
    fpoerAddr 0x4006F900 en_fgpio_port_t.FGpioPort3.arg = 0x4006F900 + 4 * 3 ∧
    load16 (FGpio_EnableOutput 0x4006F900 (.add en_fgpio_port_t.FGpioPort1.arg 2) 0xFFFF
      (fun _ => 0)) (0x4006F900 + 4 * 3) = 0 ∧
    load16 (FGpio_EnableOutput 0x4006F900 (.add en_fgpio_port_t.FGpioPort1.arg 2) 0xFFFF
      (fun _ => 0)) (0x4006F900 + 4 * 2) = 0xFF00 ∧
    load16 (FGpio_EnableOutput 0x4006F900 en_fgpio_port_t.FGpioPort3.arg 0xFFFF
      (fun _ => 0)) (0x4006F900 + 4 * 3) = 0xFFFF ∧
    load16 (FGpio_DisableOutput 0x4006F900 (.add en_fgpio_port_t.FGpioPort1.arg 2)
      (fun _ => 0xFF)) (0x4006F900 + 4 * 3) = 0xFFFF := by
  refine ⟨by decide, by decide, by decide, by decide, by decide, by decide, by decide⟩
